import Mathlib

/-
Verification of the OSv condition-variable primitive (include/osv/condvar.h).
The header carries the condvar_t structure, the C++ constructor and the
wait_until template; the bodies of condvar_wait, condvar_wake_one and
condvar_wake_all live in a translation unit outside the tree, so those
operations are modelled from the specification of the protocol.
-/

set_option linter.unusedVariables false

namespace OsvCondvar

/-- Terminal status of a wait call: woken by an explicit wake, or removed by
its own timer firing. The header promises (condvar.h lines 8-24) that these
are the only two ways a wait ends. -/
inductive WaitOutcome
  | Woken
  | TimedOut
deriving DecidableEq, Repr

/-- The condvar_t structure from condvar.h lines 61-89. The field m is the
internal mutex word, zero when unlocked; waiters_fifo is the FIFO queue of
wait records, oldest first, here rendered as the list of record identifiers
that the oldest/newest pointer pair threads through; user_mutex remembers the
mutex last used in a wait, for the wait-morphing feature, with none standing
for the null pointer. -/
structure Condvar where
  m : Nat
  waiters_fifo : List Nat
  user_mutex : Option Nat
deriving DecidableEq, Repr

/-- The C++ default constructor condvar.h line 81 runs memset(this, 0,
sizeof *this): every field takes its zero value, so the internal mutex word
is 0, both FIFO pointers are null (an empty queue) and user_mutex is null.
CONDVAR_INITIALIZER at line 91 produces the same all-zero value. -/
def condvar_init : Condvar :=
  { m := 0, waiters_fifo := [], user_mutex := none }

/-- Usage error a wait call can detect: the caller supplied a mutex different
from the remembered one while waiters that used the remembered one are still
queued (condvar.h lines 71-77 disallow different mutexes in concurrent
waits). -/
inductive CondvarError
  | lockMismatch
deriving DecidableEq, Repr

/-- Modelled from the spec: the validation and enqueue critical section of
condvar_wait, whose body is not in the tree (spec section 4.2 steps 1-3).
Under the internal lock: if a remembered mutex exists, differs from the mutex
supplied by this call, and other waiters are currently queued, the call is a
usage error, failing fast with the state untouched; otherwise the remembered
mutex becomes the supplied one and the wait record is pushed at the tail of
the FIFO. -/
def wait_enqueue (cv : Condvar) (lock r : Nat) : Except CondvarError Condvar :=
  match cv.user_mutex with
  | some l =>
      if l ≠ lock ∧ cv.waiters_fifo ≠ [] then
        Except.error CondvarError.lockMismatch
      else
        Except.ok { cv with user_mutex := some lock,
                            waiters_fifo := cv.waiters_fifo ++ [r] }
  | none =>
      Except.ok { cv with user_mutex := some lock,
                          waiters_fifo := cv.waiters_fifo ++ [r] }

/-- Modelled from the spec: condvar_wake_one, declared at condvar.h line 99
with its body not in the tree (spec section 4.3). Under the internal lock,
when the FIFO is non-empty the oldest record is popped, marked Woken and its
thread made runnable; the released record and its status are returned. On an
empty queue the call is a no-op returning none. -/
def condvar_wake_one (cv : Condvar) : Condvar × Option (Nat × WaitOutcome) :=
  match cv.waiters_fifo with
  | [] => (cv, none)
  | r :: rest =>
      ({ cv with waiters_fifo := rest }, some (r, WaitOutcome.Woken))

/-- Modelled from the spec: condvar_wake_all, declared at condvar.h line 100
with its body not in the tree (spec section 4.4). Under the internal lock,
every queued record is popped and marked Woken; the queue becomes empty and
the list of released records, oldest first, is returned. -/
def condvar_wake_all (cv : Condvar) : Condvar × List (Nat × WaitOutcome) :=
  ({ cv with waiters_fifo := [] },
   cv.waiters_fifo.map (fun r => (r, WaitOutcome.Woken)))

/-- Modelled from the spec: the timer callback a timed wait registers (spec
section 4.2 step 5 and section 4.5; the body is not in the tree). Under the
internal lock it checks whether the record is still queued; if so it removes
it, marks it TimedOut and wakes the thread, returning the decided status; if
the record is already absent — the explicit wake won the race — it does
nothing further and returns none. -/
def timer_fire (cv : Condvar) (r : Nat) : Condvar × Option WaitOutcome :=
  if r ∈ cv.waiters_fifo then
    ({ cv with waiters_fifo := cv.waiters_fifo.erase r },
     some WaitOutcome.TimedOut)
  else
    (cv, none)

/-- Which contender ends the blocked phase of a wait: an explicit
wake_one/wake_all, or the firing of the timer this wait registered. -/
inductive Waker
  | wake
  | timer
deriving DecidableEq, Repr

/-- Modelled from the spec: condvar_wait as a whole, declared at condvar.h
line 98 with its body not in the tree (spec section 4.2). The caller holds
the user mutex on entry. The record is validated and enqueued, the user
mutex is released, and the thread blocks until either an explicit wake or
its own timer removes the record and decides the outcome; the winner
argument names which side did. On resumption the user mutex is reacquired,
either normally or handed over by wait morphing, so the returned flag for
holding the mutex is true. A timeout comes back as the ordinary value
TimedOut, never as an error. -/
def condvar_wait (cv : Condvar) (lock r : Nat) (winner : Waker) :
    Except CondvarError (Condvar × WaitOutcome × Bool) :=
  match wait_enqueue cv lock r with
  | Except.error e => Except.error e
  | Except.ok cv1 =>
      let out := match winner with
        | Waker.wake => WaitOutcome.Woken
        | Waker.timer => WaitOutcome.TimedOut
      Except.ok ({ cv1 with waiters_fifo := cv1.waiters_fifo.erase r },
                 out, true)

/-- Events that mutate the condvar state; each one is a single critical
section executed under the internal lock, the serialization point of the
protocol. -/
inductive Event
  | enq (lock r : Nat)
  | wakeOne
  | wakeAll
  | timerFire (r : Nat)
deriving DecidableEq, Repr

/-- Modelled from the spec: the state change one critical section of the
protocol performs (sections 4.2 to 4.5). An enqueue that is a usage error
fails fast and leaves the state untouched. -/
def step (cv : Condvar) (e : Event) : Condvar :=
  match e with
  | Event.enq lock r =>
      match wait_enqueue cv lock r with
      | Except.ok cv1 => cv1
      | Except.error _ => cv
  | Event.wakeOne => (condvar_wake_one cv).1
  | Event.wakeAll => (condvar_wake_all cv).1
  | Event.timerFire r => (timer_fire cv r).1

/-- Runs a sequence of critical sections from a starting state. -/
def run (cv : Condvar) : List Event → Condvar
  | [] => cv
  | e :: es => run (step cv e) es

/-- Tests whether an event is an explicit wake, or the firing of the timer
belonging to record r — the only events allowed to release r. -/
def isWakeOrTimeout (e : Event) (r : Nat) : Bool :=
  match e with
  | Event.enq _ _ => false
  | Event.wakeOne => true
  | Event.wakeAll => true
  | Event.timerFire q => q = r

/-- Enqueues a sequence of wait records with one shared user mutex, the
prefix of a group of wait calls that each complete their enqueue before the
next begins. -/
def enqueueAll (lock : Nat) : Condvar → List Nat → Except CondvarError Condvar
  | cv, [] => Except.ok cv
  | cv, r :: rs =>
      match wait_enqueue cv lock r with
      | Except.ok cv1 => enqueueAll lock cv1 rs
      | Except.error e => Except.error e

/-- Performs n successive wake_one calls, collecting the released records in
release order. -/
def wakeSeq (cv : Condvar) : Nat → Condvar × List (Nat × WaitOutcome)
  | 0 => (cv, [])
  | n + 1 =>
      let p := condvar_wake_one cv
      let q := wakeSeq p.1 n
      (q.1, p.2.toList ++ q.2)

/-- The wait_until template from condvar.h lines 120-127: while the predicate
is false, call wait on the mutex and re-check. The predicate reads an
abstract environment state and each wait call is a state transformer covering
the block, the wake and the reacquisition of the mutex. The while loop of the
source can run unboundedly, so fuel bounds the number of wait calls and none
renders divergence; a some result carries the final state and the number of
wait calls made. -/
def wait_until {σ : Type} (pred : σ → Bool) (wait1 : σ → σ) :
    Nat → σ → Option (σ × Nat)
  | 0, s => if pred s then some (s, 0) else none
  | fuel + 1, s =>
      if pred s then some (s, 0)
      else
        match wait_until pred wait1 fuel (wait1 s) with
        | some p => some (p.1, p.2 + 1)
        | none => none

/-- C8: calling wake_one or wake_all when the waiters queue is empty is not
an error: both calls return normally as silent no-ops, leaving the condvar
state unchanged and releasing nobody. -/
theorem wake_on_empty_noop (cv : Condvar) (h : cv.waiters_fifo = []) :
    condvar_wake_one cv = (cv, none) ∧ condvar_wake_all cv = (cv, []) := by
  obtain ⟨m, ws, um⟩ := cv
  simp only at h
  subst h
  constructor
  · rfl
  · rfl

/-- Witness for C8 at the zero instance, whose queue is empty. -/
theorem wake_on_empty_noop_witness :
    condvar_wake_one condvar_init = (condvar_init, none) ∧
    condvar_wake_all condvar_init = (condvar_init, []) :=
  wake_on_empty_noop condvar_init rfl

/-- C5: the all-zero value produced by the default constructor (memset to
zero) is a valid, empty, ready instance: its internal mutex word is zero,
its queue is empty, no mutex is remembered, wake_one and wake_all on it are
safe no-ops, and any wait call on it is accepted at once — no separate init
or destroy step exists. -/
theorem zero_initialized_ready :
    condvar_init.m = 0 ∧
    condvar_init.waiters_fifo = [] ∧
    condvar_init.user_mutex = none ∧
    condvar_wake_one condvar_init = (condvar_init, none) ∧
    condvar_wake_all condvar_init = (condvar_init, []) ∧
    ∀ lock r winner, (condvar_wait condvar_init lock r winner).isOk = true := by
  refine ⟨rfl, rfl, rfl, rfl, rfl, ?_⟩
  intro lock r winner
  rfl

/-- C7: a wait call supplying a mutex different from the remembered one while
waiters from the remembered mutex are still queued is detected as a usage
error: the enqueue fails fast with lockMismatch, no state is returned, and
the whole wait call propagates the same error for either race outcome. -/
theorem lock_mismatch_fail_fast (cv : Condvar) (lockA lockB r : Nat)
    (hm : cv.user_mutex = some lockA) (hq : cv.waiters_fifo ≠ [])
    (hne : lockA ≠ lockB) :
    wait_enqueue cv lockB r = Except.error CondvarError.lockMismatch ∧
    ∀ winner, condvar_wait cv lockB r winner =
      Except.error CondvarError.lockMismatch := by
  have henq : wait_enqueue cv lockB r = Except.error CondvarError.lockMismatch := by
    unfold wait_enqueue
    rw [hm]
    simp [hne, hq]
  refine ⟨henq, ?_⟩
  intro winner
  unfold condvar_wait
  rw [henq]

/-- Witness for C7: one waiter queued under mutex 10, a second wait arrives
with mutex 11. -/
theorem lock_mismatch_fail_fast_witness :
    wait_enqueue ⟨0, [1], some 10⟩ 11 2 =
      Except.error CondvarError.lockMismatch :=
  (lock_mismatch_fail_fast ⟨0, [1], some 10⟩ 10 11 2 rfl (by decide)
    (by decide)).1

/-- C2: a wait call that is not a lock-mismatch usage error returns normally
with exactly one of the two outcomes Woken or TimedOut, and on return the
caller holds the user mutex again; a timeout is delivered as the ordinary
TimedOut value on the success path, never as an error. -/
theorem condvar_wait_contract (cv : Condvar) (lock r : Nat) (winner : Waker)
    (h : cv.user_mutex = none ∨ cv.user_mutex = some lock ∨
         cv.waiters_fifo = []) :
    (condvar_wait cv lock r winner).toOption.map (fun x => x.2.2) =
      some true ∧
    ((condvar_wait cv lock r winner).toOption.map (fun x => x.2.1) =
        some WaitOutcome.Woken ∨
     (condvar_wait cv lock r winner).toOption.map (fun x => x.2.1) =
        some WaitOutcome.TimedOut) := by
  have henq : ∃ cv1, wait_enqueue cv lock r = Except.ok cv1 := by
    unfold wait_enqueue
    rcases h with h | h | h
    · rw [h]
      exact ⟨_, rfl⟩
    · rw [h]
      simp
    · cases hm : cv.user_mutex with
      | none => exact ⟨_, rfl⟩
      | some l => simp [h]
  obtain ⟨cv1, henq⟩ := henq
  unfold condvar_wait
  rw [henq]
  cases winner
  · exact ⟨rfl, Or.inl rfl⟩
  · exact ⟨rfl, Or.inr rfl⟩

/-- Witness for C2: a wait on the zero instance ended by an explicit wake. -/
theorem condvar_wait_contract_witness :
    (condvar_wait condvar_init 1 2 Waker.wake).toOption.map
        (fun x => x.2.2) = some true ∧
    ((condvar_wait condvar_init 1 2 Waker.wake).toOption.map
        (fun x => x.2.1) = some WaitOutcome.Woken ∨
     (condvar_wait condvar_init 1 2 Waker.wake).toOption.map
        (fun x => x.2.1) = some WaitOutcome.TimedOut) :=
  condvar_wait_contract condvar_init 1 2 Waker.wake (Or.inl rfl)

/-- Helper for C1: a single critical section that is neither a wake nor the
firing of the timer of record r keeps r in the queue. -/
lemma step_keeps_record (cv : Condvar) (e : Event) (r : Nat)
    (hwake : isWakeOrTimeout e r = false) (hr : r ∈ cv.waiters_fifo) :
    r ∈ (step cv e).waiters_fifo := by
  cases e with
  | enq lock q =>
      simp only [step, wait_enqueue]
      cases hm : cv.user_mutex with
      | some l =>
          by_cases hc : l ≠ lock ∧ cv.waiters_fifo ≠ []
          · simp only [if_pos hc]
            exact hr
          · simp only [if_neg hc]
            exact List.mem_append_left _ hr
      | none => exact List.mem_append_left _ hr
  | wakeOne => simp [isWakeOrTimeout] at hwake
  | wakeAll => simp [isWakeOrTimeout] at hwake
  | timerFire q =>
      have hqr : q ≠ r := by
        simpa [isWakeOrTimeout] using hwake
      simp only [step, timer_fire]
      by_cases hq : q ∈ cv.waiters_fifo
      · simp only [if_pos hq]
        exact (List.mem_erase_of_ne (Ne.symm hqr)).mpr hr
      · simp only [if_neg hq]
        exact hr

/-- C1: no spurious wakeup. Along any sequence of protocol critical
sections, a queued wait record leaves the queue — the only way its wait call
can return — only if the sequence contains an explicit wake_one or wake_all,
or the firing of that very record's timer; no other event ever releases it. -/
theorem no_spurious_wakeup (cv : Condvar) (tr : List Event) (r : Nat)
    (hin : r ∈ cv.waiters_fifo) (hout : r ∉ (run cv tr).waiters_fifo) :
    ∃ e ∈ tr, isWakeOrTimeout e r = true := by
  induction tr generalizing cv with
  | nil => exact absurd hin hout
  | cons e es ih =>
      by_cases he : isWakeOrTimeout e r = true
      · exact ⟨e, List.mem_cons_self e es, he⟩
      · have hr2 : r ∈ (step cv e).waiters_fifo :=
          step_keeps_record cv e r (by simpa using he) hin
        obtain ⟨e2, hmem, hw⟩ := ih (step cv e) hr2 hout
        exact ⟨e2, List.mem_cons_of_mem e hmem, hw⟩

/-- Witness for C1: record 5 is queued, leaves only through the wake_one in
the trace. -/
theorem no_spurious_wakeup_witness :
    ∃ e ∈ [Event.wakeOne], isWakeOrTimeout e 5 = true :=
  no_spurious_wakeup ⟨0, [5], none⟩ [Event.wakeOne] 5 (by decide) (by decide)

/-- Helper for C6: a record absent from the queue never shows up among the
released pairs. -/
lemma released_absent (l : List Nat) (r : Nat) (hr : r ∉ l) :
    (l.map (fun q => (q, WaitOutcome.Woken))).filter (fun p => p.1 == r)
      = [] := by
  induction l with
  | nil => rfl
  | cons a t ih =>
      have ha : a ≠ r := fun he => hr (he ▸ List.mem_cons_self a t)
      have ht : r ∉ t := fun hm => hr (List.mem_cons_of_mem a hm)
      have hb : (a == r) = false := by
        rw [beq_eq_false_iff_ne]
        exact ha
      simp [List.filter, hb, ih ht]

/-- Helper for C6: a record queued once appears among the released pairs
exactly once. -/
lemma released_once (l : List Nat) (r : Nat) (hnd : l.Nodup) (hr : r ∈ l) :
    ((l.map (fun q => (q, WaitOutcome.Woken))).filter
        (fun p => p.1 == r)).length = 1 := by
  induction l with
  | nil => cases hr
  | cons a t ih =>
      rcases List.mem_cons.mp hr with h | h
      · subst h
        have hrt : r ∉ t := (List.nodup_cons.mp hnd).1
        have hb : (r == r) = true := beq_self_eq_true r
        simp [List.filter, hb, released_absent t r hrt]
      · have ha : a ≠ r := by
          intro he
          exact (List.nodup_cons.mp hnd).1 (he ▸ h)
        have hb : (a == r) = false := by
          rw [beq_eq_false_iff_ne]
          exact ha
        have ht := ih (List.nodup_cons.mp hnd).2 h
        simp [List.filter, hb, ht]

/-- C6: after wake_all the queue is empty, the released records are exactly
the records queued at the start of the call in queue order, each marked
Woken, and — the queue holding each record once — each is released exactly
once. -/
theorem wake_all_drains (cv : Condvar) (h : cv.waiters_fifo.Nodup) :
    (condvar_wake_all cv).1.waiters_fifo = [] ∧
    (condvar_wake_all cv).2 =
      cv.waiters_fifo.map (fun r => (r, WaitOutcome.Woken)) ∧
    ∀ r ∈ cv.waiters_fifo,
      ((condvar_wake_all cv).2.filter (fun p => p.1 == r)).length = 1 := by
  refine ⟨rfl, rfl, ?_⟩
  intro r hr
  exact released_once cv.waiters_fifo r h hr

/-- Witness for C6: three queued records are all drained. -/
theorem wake_all_drains_witness :
    (condvar_wake_all ⟨0, [1, 2, 3], some 10⟩).1.waiters_fifo = [] :=
  (wake_all_drains ⟨0, [1, 2, 3], some 10⟩ (by decide)).1

/-- Helper for C3: once the mutex is remembered, a run of enqueues under the
same mutex succeeds and appends the records at the tail in order. -/
lemma enqueueAll_same_lock (lock : Nat) :
    ∀ (rs : List Nat) (m : Nat) (ws : List Nat),
    enqueueAll lock ⟨m, ws, some lock⟩ rs =
      Except.ok ⟨m, ws ++ rs, some lock⟩ := by
  intro rs
  induction rs with
  | nil =>
      intro m ws
      simp [enqueueAll]
  | cons r rs ih =>
      intro m ws
      have he : wait_enqueue ⟨m, ws, some lock⟩ lock r =
          Except.ok ⟨m, ws ++ [r], some lock⟩ := by
        simp [wait_enqueue]
      simp [enqueueAll, he, ih m (ws ++ [r])]

/-- Helper for C3: as many wake_one calls as there are queued records drain
the queue, releasing the records in queue order, each marked Woken. -/
lemma wakeSeq_drains :
    ∀ (ws : List Nat) (m : Nat) (um : Option Nat),
    wakeSeq ⟨m, ws, um⟩ ws.length =
      (⟨m, [], um⟩, ws.map (fun r => (r, WaitOutcome.Woken))) := by
  intro ws
  induction ws with
  | nil =>
      intro m um
      rfl
  | cons r rs ih =>
      intro m um
      simp [wakeSeq, condvar_wake_one, ih m um]

/-- C3: FIFO order. Starting from the zero instance, wait calls that each
complete their enqueue before the next begins, all under one mutex, build
the queue in arrival order; the same number of later wake_one calls then
release exactly those records, oldest first, in the arrival order, emptying
the queue. -/
theorem fifo_order (lock : Nat) (rs : List Nat) :
    ∃ cv : Condvar,
      enqueueAll lock condvar_init rs = Except.ok cv ∧
      cv.waiters_fifo = rs ∧
      (wakeSeq cv rs.length).2 = rs.map (fun r => (r, WaitOutcome.Woken)) ∧
      (wakeSeq cv rs.length).1.waiters_fifo = [] := by
  cases rs with
  | nil => exact ⟨condvar_init, rfl, rfl, rfl, rfl⟩
  | cons r rest =>
      have hw := wakeSeq_drains (r :: rest) 0 (some lock)
      refine ⟨⟨0, r :: rest, some lock⟩, ?_, rfl, ?_, ?_⟩
      · have h1 : wait_enqueue condvar_init lock r =
            Except.ok ⟨0, [r], some lock⟩ := rfl
        simp [enqueueAll, h1, enqueueAll_same_lock lock rest 0 [r]]
      · rw [hw]
      · rw [hw]

/-- C4: the timeout/wake race is single-resolution. With record r at the
head of the queue and queued only once, running the two contenders in either
order under the internal lock lets exactly one of them claim r: if the wake
goes first it releases r as Woken and the later timer firing finds r absent
and does nothing; if the timer goes first it removes r as TimedOut and a
later wake_one never touches r again — no double wake, no double release,
no use of a removed record. -/
theorem timeout_wake_single_resolution (cv : Condvar) (r : Nat)
    (rest : List Nat) (hq : cv.waiters_fifo = r :: rest) (hr : r ∉ rest) :
    (condvar_wake_one cv).2 = some (r, WaitOutcome.Woken) ∧
    timer_fire (condvar_wake_one cv).1 r = ((condvar_wake_one cv).1, none) ∧
    (timer_fire cv r).2 = some WaitOutcome.TimedOut ∧
    (timer_fire cv r).1.waiters_fifo = rest ∧
    (∀ q s, (condvar_wake_one (timer_fire cv r).1).2 = some (q, s) →
      q ≠ r) := by
  obtain ⟨m, ws, um⟩ := cv
  simp only at hq
  subst hq
  have hrin : r ∈ r :: rest := List.mem_cons_self r rest
  have hone : condvar_wake_one ⟨m, r :: rest, um⟩ =
      (⟨m, rest, um⟩, some (r, WaitOutcome.Woken)) := rfl
  have htf : timer_fire ⟨m, r :: rest, um⟩ r =
      (⟨m, rest, um⟩, some WaitOutcome.TimedOut) := by
    simp [timer_fire, hrin, List.erase_cons_head]
  refine ⟨by rw [hone], ?_, by rw [htf], by rw [htf], ?_⟩
  · rw [hone]
    simp [timer_fire, hr]
  · rw [htf]
    cases rest with
    | nil =>
        intro q s hqs
        cases hqs
    | cons b t =>
        intro q s hqs
        have hb : q = b := by
          have : (condvar_wake_one ⟨m, b :: t, um⟩).2 =
              some (b, WaitOutcome.Woken) := rfl
          rw [this] at hqs
          cases hqs
          rfl
        subst hb
        intro he
        exact hr (he ▸ List.mem_cons_self q t)

/-- Witness for C4: the wake claims the single queued record 7, the timer
then finds it gone. -/
theorem timeout_wake_single_resolution_witness :
    (condvar_wake_one ⟨0, [7], some 3⟩).2 = some (7, WaitOutcome.Woken) :=
  (timeout_wake_single_resolution ⟨0, [7], some 3⟩ 7 [] rfl (by decide)).1

/-- C10: wait_until returns only in a state where the predicate holds, and
when the predicate already holds on entry it returns at once with the state
untouched and zero wait calls made. -/
theorem wait_until_spec {σ : Type} (pred : σ → Bool) (wait1 : σ → σ)
    (fuel : Nat) (s s2 : σ) (n : Nat)
    (h : wait_until pred wait1 fuel s = some (s2, n)) :
    pred s2 = true ∧ (pred s = true → s2 = s ∧ n = 0) := by
  induction fuel generalizing s n with
  | zero =>
      by_cases hp : pred s = true
      · unfold wait_until at h
        rw [if_pos hp] at h
        cases h
        exact ⟨hp, fun _ => ⟨rfl, rfl⟩⟩
      · unfold wait_until at h
        rw [if_neg hp] at h
        exact Option.noConfusion h
  | succ fuel ih =>
      by_cases hp : pred s = true
      · unfold wait_until at h
        rw [if_pos hp] at h
        cases h
        exact ⟨hp, fun _ => ⟨rfl, rfl⟩⟩
      · unfold wait_until at h
        rw [if_neg hp] at h
        cases hrec : wait_until pred wait1 fuel (wait1 s) with
        | none =>
            rw [hrec] at h
            exact Option.noConfusion h
        | some p =>
            obtain ⟨ps, pn⟩ := p
            rw [hrec] at h
            injection h with h1
            injection h1 with h2 h3
            subst h2
            subst h3
            exact ⟨(ih (wait1 s) pn hrec).1, fun hps => absurd hps hp⟩

/-- Witness for C10: starting at 0 with the predicate true from 3 on, the
loop makes three wait calls and stops in a state satisfying the predicate;
the entry state does not satisfy it, so the immediate-return clause is
vacuous there. -/
theorem wait_until_spec_witness :
    (fun k : Nat => decide (3 ≤ k)) 3 = true ∧
    ((fun k : Nat => decide (3 ≤ k)) 0 = true → 3 = 0 ∧ 3 = 0) :=
  wait_until_spec (fun k : Nat => decide (3 ≤ k)) (fun k => k + 1) 5 0 3 3
    (by decide)

end OsvCondvar
